import Mathlib

/-!
# Verification of the module / symbol-resolution subsystem (`src/module.rs`)

This file gives a shallow embedding of the module system of the Rhai
scripting runtime: the `Module` namespace container, its flattening
index `index_all_sub_modules`, the `ModuleRef` qualifier chain, and the
static module resolver.  Rust `HashMap`s are modelled as association
lists with replace-on-insert semantics; 64-bit hashes are modelled as a
collision-free encoding into `Nat` (the spec guarantees a deterministic,
order-sensitive fingerprint and accepts last-write-wins on collision;
the encoding realises the generic, collision-free case).
-/

namespace Rhai

/-- An injective encoding of a list of naturals into a natural, built
from the Cantor pairing function.  Used to model hashing. -/
def encodeNatList : List Nat → Nat
  | [] => 0
  | x :: xs => Nat.pair x (encodeNatList xs) + 1

/-- Encoding of a string: encode the list of character codes. -/
def encodeStr (s : String) : Nat :=
  encodeNatList (s.data.map Char.toNat)

/-- Encoding of a list of strings. -/
def encodeStrList (l : List String) : Nat :=
  encodeNatList (l.map encodeStr)

/-- Modelled from the spec: `crate::calc_fn_hash` is not among the
sources (it lives in `utils.rs`).  §4.1 of the spec requires a
deterministic 64-bit fingerprint of (ordered qualifier path, symbol
name, arity, ordered type ids), sensitive to the order of qualifiers
and type ids; no collision-avoidance guarantee is given.  We model it
as a collision-free pairing-based encoding into `Nat`. -/
def calc_fn_hash (qualifiers : List String) (name : String) (arity : Nat)
    (typeIds : List Nat) : Nat :=
  Nat.pair (encodeStrList qualifiers)
    (Nat.pair (encodeStr name) (Nat.pair arity (encodeNatList typeIds)))

/-- `FnAccess` visibility (from `parser.rs`, re-exported): `Private` or
`Public`. -/
inductive FnAccess where
  | Private
  | Public
deriving DecidableEq

/-- Dynamically-typed script values (`Dynamic`).  Only the cases the
module subsystem manipulates are modelled; module-valued dynamics are
handled separately in scope entries. -/
inductive Dyn where
  | int (i : Int)
  | str (s : String)
  | unit
deriving DecidableEq

/-- Modelled from the spec: a script-defined function record (`FnDef`
from `parser.rs` is not among the sources).  Per §3 it carries a name,
visibility, parameter list and a body reference. -/
structure FnDef where
  name : String
  access : FnAccess
  params : List String
  body : Nat
deriving DecidableEq

/-- `CallableFunction` (from `fn_native.rs`, external): a shared
callable, either a native function (pure or method, identified here by
an opaque id) or a script-defined function. -/
inductive CallableFunction where
  | pure (id : Nat)
  | method (id : Nat)
  | script (d : FnDef)
deriving DecidableEq

/-- A native-function entry of the local `functions` table:
`(name, access, param type ids, callable)`. -/
structure FnEntry where
  name : String
  access : FnAccess
  params : List Nat
  func : CallableFunction
deriving DecidableEq

/-- Source position (from `token.rs`, external): either none or a
line/column pair. -/
inductive Position where
  | none
  | line_col (line col : Nat)
deriving DecidableEq

/-- The error variants of `EvalAltResult` surfaced by this subsystem. -/
inductive EvalAltResult where
  | ErrorVariableNotFound (name : String) (pos : Position)
  | ErrorFunctionNotFound (name : String) (pos : Position)
  | ErrorModuleNotFound (path : String) (pos : Position)
deriving DecidableEq

/-- Association-list lookup: first match wins. -/
def alFind {α β : Type} [DecidableEq α] : List (α × β) → α → Option β
  | [], _ => Option.none
  | (k', v') :: rest, k => if k' = k then some v' else alFind rest k

/-- Association-list insert with `HashMap::insert` semantics: replace
the existing binding in place, or append a new one. -/
def alInsert {α β : Type} [DecidableEq α] : List (α × β) → α → β → List (α × β)
  | [], k, v => [(k, v)]
  | (k', v') :: rest, k, v =>
    if k' = k then (k, v) :: rest else (k', v') :: alInsert rest k v

/-- Collecting a sequence of insertions into a map, in order (models
`Vec::into_iter().collect::<HashMap<_,_>>()`: later writes win). -/
def toMap {β : Type} (l : List (Nat × β)) : List (Nat × β) :=
  l.foldl (fun acc kv => alInsert acc kv.1 kv.2) []

mutual
/-- `Module` (src/module.rs lines 39-61): sub-modules, variables, the
derived `all_variables` index, native functions, script functions
(`fn_lib`), type iterators, and the derived `all_functions` index. -/
inductive Module where
  | mk (modules : SubModules)
       (vars : List (String × Dyn))
       (all_variables : List (Nat × Dyn))
       (functions : List (Nat × FnEntry))
       (fn_lib : List FnDef)
       (type_iterators : List (Nat × Nat))
       (all_functions : List (Nat × CallableFunction))

/-- The sub-module mapping (name → module), as an explicit list so the
mutual recursion with `Module` stays structural. -/
inductive SubModules where
  | nil
  | cons (name : String) (m : Module) (rest : SubModules)
end

namespace Module

def modules : Module → SubModules
  | .mk ms _ _ _ _ _ _ => ms

def vars : Module → List (String × Dyn)
  | .mk _ vs _ _ _ _ _ => vs

def all_variables : Module → List (Nat × Dyn)
  | .mk _ _ avs _ _ _ _ => avs

def functions : Module → List (Nat × FnEntry)
  | .mk _ _ _ fns _ _ _ => fns

def fn_lib : Module → List FnDef
  | .mk _ _ _ _ lib _ _ => lib

def type_iterators : Module → List (Nat × Nat)
  | .mk _ _ _ _ _ its _ => its

def all_functions : Module → List (Nat × CallableFunction)
  | .mk _ _ _ _ _ _ afs => afs

/-- `Module::new()`: the empty namespace. -/
def new : Module := .mk .nil [] [] [] [] [] []

end Module

/-- Lookup in the sub-module mapping. -/
def subFind : SubModules → String → Option Module
  | .nil, _ => Option.none
  | .cons n m rest, k => if n = k then some m else subFind rest k

/-- Insert into the sub-module mapping (replace or append). -/
def subInsert : SubModules → String → Module → SubModules
  | .nil, k, v => .cons k v .nil
  | .cons n m rest, k, v =>
    if n = k then .cons k v rest else .cons n m (subInsert rest k v)

mutual
/-- `index_module` (src/module.rs lines 626-681): walk one module,
collecting `(hash, value)` pairs for variables and `(hash, callable)`
pairs for Public functions, sub-modules first. -/
def indexModule (m : Module) (qualifiers : List String) :
    List (Nat × Dyn) × List (Nat × CallableFunction) :=
  match m with
  | .mk subs vars _ fns lib _ _ =>
    let sub := indexSubs subs qualifiers
    let vs := vars.map fun nv => (calc_fn_hash qualifiers nv.1 0 [], nv.2)
    let natFns := fns.filterMap fun ke =>
      match ke.2.access with
      | .Private => Option.none
      | .Public =>
        some (Nat.xor (calc_fn_hash qualifiers ke.2.name ke.2.params.length [])
                (calc_fn_hash [] "" 0 ke.2.params), ke.2.func)
    let scrFns := lib.filterMap fun d =>
      match d.access with
      | .Private => Option.none
      | .Public =>
        some (calc_fn_hash qualifiers d.name d.params.length [],
              CallableFunction.script d)
    (sub.1 ++ vs, sub.2 ++ natFns ++ scrFns)

/-- Walk the sub-module list, extending the qualifier path with each
sub-module's name before descending. -/
def indexSubs (ms : SubModules) (qualifiers : List String) :
    List (Nat × Dyn) × List (Nat × CallableFunction) :=
  match ms with
  | .nil => ([], [])
  | .cons name m rest =>
    let a := indexModule m (qualifiers ++ [name])
    let b := indexSubs rest qualifiers
    (a.1 ++ b.1, a.2 ++ b.2)
end

namespace Module

/-- `Module::index_all_sub_modules` (src/module.rs lines 624-690):
collect the whole subtree starting from the sentinel qualifier
`["root"]`, then replace `all_variables` and `all_functions`
wholesale. -/
def index_all_sub_modules (m : Module) : Module :=
  let r := indexModule m ["root"]
  match m with
  | .mk subs vars _ fns lib its _ =>
    .mk subs vars (toMap r.1) fns lib its (toMap r.2)

/-- `Module::set_var` (src/module.rs lines 167-169): insert or replace a
local variable.  (`Dynamic::from` wrapping is the identity in this
model.) -/
def set_var (m : Module) (name : String) (value : Dyn) : Module :=
  match m with
  | .mk subs vs avs fns lib its afs =>
    .mk subs (alInsert vs name value) avs fns lib its afs

/-- `Module::get_var` (src/module.rs lines 150-152). -/
def get_var (m : Module) (name : String) : Option Dyn :=
  alFind m.vars name

/-- `Module::contains_var` (src/module.rs lines 120-122). -/
def contains_var (m : Module) (name : String) : Bool :=
  (alFind m.vars name).isSome

/-- `Module::get_qualified_var_mut` (src/module.rs lines 174-183): look
up `all_variables` by hash, or fail with `ErrorVariableNotFound`
carrying the display name and position. -/
def get_qualified_var_mut (m : Module) (name : String) (hash_var : Nat)
    (pos : Position) : Except EvalAltResult Dyn :=
  match alFind m.all_variables hash_var with
  | some v => .ok v
  | Option.none => .error (.ErrorVariableNotFound name pos)

/-- `Module::set_sub_module` (src/module.rs lines 247-249). -/
def set_sub_module (m : Module) (name : String) (sub : Module) : Module :=
  match m with
  | .mk subs vs avs fns lib its afs =>
    .mk (subInsert subs name sub) vs avs fns lib its afs

/-- `Module::get_sub_module` (src/module.rs lines 213-215). -/
def get_sub_module (m : Module) (name : String) : Option Module :=
  subFind m.modules name

/-- `Module::set_fn` (src/module.rs lines 272-289): compute the hash of
(empty qualifiers, name, arity, the parameter type ids), insert the
entry under it, and return the hash. -/
def set_fn (m : Module) (name : String) (access : FnAccess)
    (params : List Nat) (func : CallableFunction) : Nat × Module :=
  let hash_fn := calc_fn_hash [] name params.length params
  match m with
  | .mk subs vs avs fns lib its afs =>
    (hash_fn,
     .mk subs vs avs (alInsert fns hash_fn ⟨name, access, params, func⟩)
       lib its afs)

/-- `Module::contains_fn` (src/module.rs lines 265-267). -/
def contains_fn (m : Module) (hash_fn : Nat) : Bool :=
  (alFind m.functions hash_fn).isSome

/-- `Module::get_fn` (src/module.rs lines 551-553). -/
def get_fn (m : Module) (hash_fn : Nat) : Option CallableFunction :=
  (alFind m.functions hash_fn).map FnEntry.func

/-- `Module::get_qualified_fn` (src/module.rs lines 559-570). -/
def get_qualified_fn (m : Module) (name : String) (hash_fn_native : Nat) :
    Except EvalAltResult CallableFunction :=
  match alFind m.all_functions hash_fn_native with
  | some f => .ok f
  | Option.none => .error (.ErrorFunctionNotFound name Position.none)

/-- `Module::set_fn_0` (src/module.rs lines 304-318): wraps a host
closure (modelled by an opaque id) and registers it `Public` with no
parameter type ids, as a pure callable. -/
def set_fn_0 (m : Module) (name : String) (fid : Nat) : Nat × Module :=
  set_fn m name .Public [] (.pure fid)

/-- `Module::set_fn_1` (src/module.rs lines 333-348): `Public`, one
parameter type id, pure. -/
def set_fn_1 (m : Module) (name : String) (tidA : Nat) (fid : Nat) :
    Nat × Module :=
  set_fn m name .Public [tidA] (.pure fid)

/-- `Module::set_fn_1_mut` (src/module.rs lines 363-379): `Public`, one
parameter type id, method (first argument by mutable reference). -/
def set_fn_1_mut (m : Module) (name : String) (tidA : Nat) (fid : Nat) :
    Nat × Module :=
  set_fn m name .Public [tidA] (.method fid)

/-- `Module::set_fn_2` (src/module.rs lines 396-415). -/
def set_fn_2 (m : Module) (name : String) (tidA tidB : Nat) (fid : Nat) :
    Nat × Module :=
  set_fn m name .Public [tidA, tidB] (.pure fid)

/-- `Module::set_fn_2_mut` (src/module.rs lines 431-450). -/
def set_fn_2_mut (m : Module) (name : String) (tidA tidB : Nat) (fid : Nat) :
    Nat × Module :=
  set_fn m name .Public [tidA, tidB] (.method fid)

/-- `Module::set_fn_3` (src/module.rs lines 467-492). -/
def set_fn_3 (m : Module) (name : String) (tidA tidB tidC : Nat) (fid : Nat) :
    Nat × Module :=
  set_fn m name .Public [tidA, tidB, tidC] (.pure fid)

/-- `Module::set_fn_3_mut` (src/module.rs lines 510-535). -/
def set_fn_3_mut (m : Module) (name : String) (tidA tidB tidC : Nat)
    (fid : Nat) : Nat × Module :=
  set_fn m name .Public [tidA, tidB, tidC] (.method fid)

end Module

/-! ## Scope and `eval_ast_as_new` -/

/-- `EntryType` of a scope entry (from `scope.rs`, external). -/
inductive ScopeEntryType where
  | Normal
  | Constant
  | Module
deriving DecidableEq

/-- A scope entry's value: a plain dynamic value or a module (the Rust
`Dynamic` holds both; the module case is what `value.cast::<Module>()`
extracts). -/
inductive ScopeVal where
  | plain (d : Dyn)
  | mod (m : Module)

/-- A scope entry (from `scope.rs`, external): type tag, value, and the
optional export alias (the Rust field is called `alias`, a reserved
word here). -/
structure ScopeEntry where
  typ : ScopeEntryType
  value : ScopeVal
  exportAlias : Option String

/-- The scope: an ordered list of entries. -/
def Scope := List ScopeEntry

/-- What `value` denotes when inserted as a module variable. -/
def ScopeVal.asDyn : ScopeVal → Dyn
  | .plain d => d
  | .mod _ => Dyn.unit

/-- What `value.cast::<Module>()` returns on a module-typed entry. -/
def ScopeVal.asModule : ScopeVal → Module
  | .mod m => m
  | .plain _ => Module.new

/-- One step of the scope partition of `Module::eval_ast_as_new`
(src/module.rs lines 596-615): aliased variables and constants become
module variables under the alias, aliased modules become sub-modules,
everything else is dropped. -/
def scopeStep (m : Module) (e : ScopeEntry) : Module :=
  match e.typ, e.exportAlias with
  | .Normal, some a => m.set_var a e.value.asDyn
  | .Constant, some a => m.set_var a e.value.asDyn
  | .Module, some a => m.set_sub_module a e.value.asModule
  | _, _ => m

/-- Modelled from the spec: `FunctionsLib::merge` (from `engine.rs`, not
among the sources).  §4.3: "the script's own function-definition table
is merged into the new module's function-definition table" — entries of
the second table are inserted over the first, keyed by name and arity. -/
def fnLibMerge (a b : List FnDef) : List FnDef :=
  b.foldl
    (fun acc d =>
      if acc.any fun d' => d'.name == d.name && d'.params.length == d.params.length
      then acc.map fun d' =>
        if d'.name == d.name && d'.params.length == d.params.length then d else d'
      else acc ++ [d])
    a

namespace Module

/-- `Module::eval_ast_as_new` (src/module.rs lines 589-620), modulo the
external script evaluation: `engine.eval_ast_with_scope_raw` (from
`engine.rs`, not among the sources) runs the script mutating the scope;
this model takes the post-evaluation scope and the AST's function
library as inputs and performs the partition and merge that follow. -/
def eval_ast_as_new (scope : Scope) (astFnLib : List FnDef) : Module :=
  let module := List.foldl scopeStep Module.new scope
  match module with
  | .mk subs vs avs fns lib its afs =>
    .mk subs vs avs fns (fnLibMerge lib astFnLib) its afs

end Module

/-! ## ModuleRef and its display form -/

/-- Modelled from the spec: `Token::DoubleColon.syntax()` (from
`token.rs`, not among the sources) — §6 calls it "a fixed
double-colon-equivalent separator token". -/
def doubleColonSep : String := "::"

/-- `ModuleRef` (src/module.rs lines 713-714): an ordered sequence of
(qualifier name, position) pairs plus an optional cached slot index. -/
structure ModuleRef where
  path : List (String × Position)
  index : Option Nat
deriving DecidableEq

/-- `impl fmt::Display for ModuleRef` (src/module.rs lines 742-749):
write every qualifier name followed by the double-colon separator. -/
def ModuleRef.display (r : ModuleRef) : String :=
  r.path.foldl (fun acc mp => acc ++ mp.1 ++ doubleColonSep) ""

/-! ## Module resolvers -/

/-- The engine (from `engine.rs`, external): opaque to this subsystem's
static resolver. -/
structure Engine where
  id : Nat

/-- `StaticModuleResolver` (src/module.rs line 963): a mapping from path
string to a pre-built module. -/
def StaticModuleResolver := List (String × Module)

/-- `StaticModuleResolver::resolve` (src/module.rs lines 1001-1014):
direct lookup, cloning the stored module on hit (cloning is the
identity here), failing with `ErrorModuleNotFound` on miss; the engine
and scope arguments are ignored. -/
def StaticModuleResolver.resolve (r : StaticModuleResolver) (_e : Engine)
    (_s : Scope) (path : String) (pos : Position) :
    Except EvalAltResult Module :=
  match alFind r path with
  | some m => .ok m
  | Option.none => .error (.ErrorModuleNotFound path pos)

/-! ## Auxiliary predicates and reference functions for the claims -/

/-- Membership of a named sub-module in the sub-module mapping. -/
inductive SubMem : SubModules → String → Module → Prop where
  | head (n : String) (m : Module) (rest : SubModules) :
      SubMem (.cons n m rest) n m
  | tail (n : String) (m : Module) (n' : String) (m' : Module)
      (rest : SubModules) :
      SubMem rest n m → SubMem (.cons n' m' rest) n m

/-- `PubContrib m q k f` holds when, during indexing of `m` under
qualifier path `q`, a Public function somewhere in the tree contributes
the pair `(k, f)`: a native Public function's XOR-combined key, a
script-defined Public function's definition hash, or a contribution of
a sub-module under the extended path. -/
inductive PubContrib : Module → List String → Nat → CallableFunction → Prop
  where
  | native (m : Module) (q : List String) (h : Nat) (e : FnEntry) :
      (h, e) ∈ m.functions → e.access = .Public →
      PubContrib m q
        (Nat.xor (calc_fn_hash q e.name e.params.length [])
          (calc_fn_hash [] "" 0 e.params)) e.func
  | scripted (m : Module) (q : List String) (d : FnDef) :
      d ∈ m.fn_lib → d.access = .Public →
      PubContrib m q (calc_fn_hash q d.name d.params.length [])
        (.script d)
  | sub (m : Module) (q : List String) (n : String) (m' : Module) (k : Nat)
      (f : CallableFunction) :
      SubMem m.modules n m' → PubContrib m' (q ++ [n]) k f →
      PubContrib m q k f

/-- Reference function, following the words of claim C7 and spec §4.3:
the exported module variable named `a` is the value of the *last*
aliased variable/constant entry of the scope carrying alias `a` (later
entries in scope order win); `Option.none` when no such entry exists. -/
def specExportedVar : Scope → String → Option Dyn
  | [], _ => Option.none
  | e :: rest, a =>
    match specExportedVar rest a with
    | some v => some v
    | Option.none =>
      match e.typ, e.exportAlias with
      | .Normal, some a' => if a' = a then some e.value.asDyn else Option.none
      | .Constant, some a' => if a' = a then some e.value.asDyn else Option.none
      | _, _ => Option.none

/-- Reference function, following the words of claim C7 and spec §4.3:
the exported sub-module named `a` is the module value of the last
module-typed entry of the scope carrying alias `a`. -/
def specExportedMod : Scope → String → Option Module
  | [], _ => Option.none
  | e :: rest, a =>
    match specExportedMod rest a with
    | some v => some v
    | Option.none =>
      match e.typ, e.exportAlias with
      | .Module, some a' =>
        if a' = a then some e.value.asModule else Option.none
      | _, _ => Option.none

/-- Each qualifier name followed by the separator, concatenated in
order (including after the final qualifier). -/
def qualifierListDisplay : List (String × Position) → String
  | [] => ""
  | p :: rest => p.1 ++ doubleColonSep ++ qualifierListDisplay rest

/-- Reference function, following the words of claim C5: each qualifier
name followed by the separator, with no separator after the final
qualifier. -/
def specDisplayNoTrailing : List (String × Position) → String
  | [] => ""
  | [p] => p.1
  | p :: rest => p.1 ++ doubleColonSep ++ specDisplayNoTrailing rest

/-- The fixed-arity registrar stored its wrapped function under the
returned handle with the given name, `Public` visibility, parameter
type ids and callable. -/
def registersPublic (p : Nat × Module) (name : String) (params : List Nat)
    (c : CallableFunction) : Prop :=
  alFind p.2.functions p.1 = some ⟨name, .Public, params, c⟩

/-- After indexing the updated module, the XOR-combined qualified key of
the function registered at the root is present in `all_functions`. -/
def qualifiedKeyPresent (p : Nat × Module) (name : String)
    (params : List Nat) : Prop :=
  (alFind p.2.index_all_sub_modules.all_functions
      (Nat.xor (calc_fn_hash ["root"] name params.length [])
        (calc_fn_hash [] "" 0 params))).isSome

/-! ## Basic lemmas -/

/-- The list encoding is injective. -/
theorem encodeNatList_inj : ∀ {l₁ l₂ : List Nat},
    encodeNatList l₁ = encodeNatList l₂ → l₁ = l₂ := by
  intro l₁
  induction l₁ with
  | nil =>
    intro l₂ h
    cases l₂ with
    | nil => rfl
    | cons y ys => simp [encodeNatList] at h
  | cons x xs ih =>
    intro l₂ h
    cases l₂ with
    | nil => simp [encodeNatList] at h
    | cons y ys =>
      simp only [encodeNatList, Nat.add_right_cancel_iff, Nat.pair_eq_pair] at h
      obtain ⟨h1, h2⟩ := h
      exact h1 ▸ (ih h2) ▸ rfl

/-- The hash is injective in the type-id list when the other inputs are
fixed: the argument-fingerprint half separates distinct overload
signatures. -/
theorem calc_fn_hash_typeIds_inj {q : List String} {n : String} {a : Nat}
    {t₁ t₂ : List Nat} (h : calc_fn_hash q n a t₁ = calc_fn_hash q n a t₂) :
    t₁ = t₂ := by
  unfold calc_fn_hash at h
  rw [Nat.pair_eq_pair] at h
  rw [Nat.pair_eq_pair] at h
  obtain ⟨-, -, h⟩ := h
  rw [Nat.pair_eq_pair] at h
  exact encodeNatList_inj h.2

theorem alFind_alInsert {α β : Type} [DecidableEq α]
    (l : List (α × β)) (k : α) (v : β) (j : α) :
    alFind (alInsert l k v) j = if k = j then some v else alFind l j := by
  induction l with
  | nil => simp [alInsert, alFind]
  | cons kv rest ih =>
    obtain ⟨k', v'⟩ := kv
    simp only [alInsert]
    by_cases hk : k' = k
    · rw [if_pos hk]
      subst hk
      by_cases hj : k' = j
      · subst hj
        simp [alFind]
      · simp [alFind, if_neg hj]
    · rw [if_neg hk]
      by_cases hj : k' = j
      · subst hj
        have hkj : ¬ k = k' := fun h => hk h.symm
        simp [alFind, if_neg hkj]
      · simp [alFind, if_neg hj, ih]

theorem alFind_mem {α β : Type} [DecidableEq α]
    {l : List (α × β)} {k : α} {v : β} (h : alFind l k = some v) :
    (k, v) ∈ l := by
  induction l with
  | nil => simp [alFind] at h
  | cons kv rest ih =>
    obtain ⟨k', v'⟩ := kv
    by_cases hk : k' = k
    · subst hk
      simp [alFind] at h
      simp [h]
    · simp only [alFind, if_neg hk] at h
      exact List.mem_cons_of_mem _ (ih h)

theorem alFind_toMap_mem {β : Type} {l : List (Nat × β)} {k : Nat} {v : β}
    (h : alFind (toMap l) k = some v) : (k, v) ∈ l := by
  suffices H : ∀ (acc : List (Nat × β)),
      alFind (l.foldl (fun acc kv => alInsert acc kv.1 kv.2) acc) k = some v →
      (k, v) ∈ l ∨ alFind acc k = some v by
    rcases H [] h with h' | h'
    · exact h'
    · simp [alFind] at h'
  clear h
  induction l with
  | nil =>
    intro acc h
    exact Or.inr h
  | cons kv rest ih =>
    intro acc h
    simp only [List.foldl_cons] at h
    rcases ih _ h with h' | h'
    · exact Or.inl (List.mem_cons_of_mem _ h')
    · rw [alFind_alInsert] at h'
      by_cases hk : kv.1 = k
      · subst hk
        simp at h'
        subst h'
        exact Or.inl (List.mem_cons_self _ _)
      · rw [if_neg hk] at h'
        exact Or.inr h'

theorem alFind_toMap_isSome {β : Type} {l : List (Nat × β)} {k : Nat} {v : β}
    (h : (k, v) ∈ l) : (alFind (toMap l) k).isSome := by
  suffices H : ∀ (acc : List (Nat × β)),
      (k, v) ∈ l ∨ (alFind acc k).isSome →
      (alFind (l.foldl (fun acc kv => alInsert acc kv.1 kv.2) acc) k).isSome by
    exact H [] (Or.inl h)
  clear h
  induction l with
  | nil =>
    intro acc h
    rcases h with h | h
    · simp at h
    · exact h
  | cons kv rest ih =>
    intro acc h
    simp only [List.foldl_cons]
    apply ih
    rcases h with h | h
    · rcases List.mem_cons.mp h with h' | h'
      · right
        subst h'
        simp [alFind_alInsert]
      · exact Or.inl h'
    · right
      rw [alFind_alInsert]
      by_cases hk : kv.1 = k
      · rw [if_pos hk]; rfl
      · rw [if_neg hk]; exact h

/-! ## Indexing collects exactly the Public functions -/

mutual
/-- Every function pair collected by `index_module` originates from a
Public function somewhere in the walked tree. -/
theorem indexModule_fns_sound : ∀ (m : Module) (q : List String)
    (kf : Nat × CallableFunction), kf ∈ (indexModule m q).2 →
    PubContrib m q kf.1 kf.2
  | .mk subs vs avs fns lib its afs, q, kf, hmem => by
    simp only [indexModule, List.mem_append] at hmem
    rcases hmem with (h | h) | h
    · rcases indexSubs_fns_sound subs q kf h with ⟨n, m', hsm, hpc⟩
      exact PubContrib.sub _ _ n m' kf.1 kf.2 hsm hpc
    · rcases List.mem_filterMap.mp h with ⟨ke, hke, heq⟩
      cases hacc : ke.2.access with
      | Private => rw [hacc] at heq; exact absurd heq (by simp)
      | Public =>
        rw [hacc] at heq
        simp only [Option.some.injEq] at heq
        subst heq
        exact PubContrib.native _ q ke.1 ke.2 hke hacc
    · rcases List.mem_filterMap.mp h with ⟨d, hd, heq⟩
      cases hacc : d.access with
      | Private => rw [hacc] at heq; exact absurd heq (by simp)
      | Public =>
        rw [hacc] at heq
        simp only [Option.some.injEq] at heq
        subst heq
        exact PubContrib.scripted _ q d hd hacc

/-- Auxiliary direction of `indexModule_fns_sound` for the sub-module
list: every collected pair comes from some sub-module of the list. -/
theorem indexSubs_fns_sound : ∀ (ms : SubModules) (q : List String)
    (kf : Nat × CallableFunction), kf ∈ (indexSubs ms q).2 →
    ∃ n m', SubMem ms n m' ∧ PubContrib m' (q ++ [n]) kf.1 kf.2
  | .nil, q, kf, h => by simp [indexSubs] at h
  | .cons n m rest, q, kf, h => by
    simp only [indexSubs, List.mem_append] at h
    rcases h with h | h
    · exact ⟨n, m, SubMem.head n m rest, indexModule_fns_sound m (q ++ [n]) kf h⟩
    · rcases indexSubs_fns_sound rest q kf h with ⟨n', m', hsm, hpc⟩
      exact ⟨n', m', SubMem.tail n' m' n m rest hsm, hpc⟩
end

/-- A contribution of a sub-module of the list is collected by
`indexSubs`. -/
theorem mem_indexSubs_of_subMem {ms : SubModules} {n : String} {m' : Module}
    (hmem : SubMem ms n m') : ∀ (q : List String) {kf : Nat × CallableFunction},
    kf ∈ (indexModule m' (q ++ [n])).2 → kf ∈ (indexSubs ms q).2 := by
  induction hmem with
  | head n m rest =>
    intro q kf h
    simp only [indexSubs, List.mem_append]
    exact Or.inl h
  | tail n m n' m' rest hsm ih =>
    intro q kf h
    simp only [indexSubs, List.mem_append]
    exact Or.inr (ih q h)

/-- Every Public contribution is collected by `index_module`. -/
theorem pubContrib_mem_indexModule {m : Module} {q : List String} {k : Nat}
    {f : CallableFunction} (h : PubContrib m q k f) :
    (k, f) ∈ (indexModule m q).2 := by
  induction h with
  | native m q hy e hmem hacc =>
    obtain ⟨subs, vs, avs, fns, lib, its, afs⟩ := m
    simp only [indexModule, List.mem_append]
    refine Or.inl (Or.inr (List.mem_filterMap.mpr ⟨(hy, e), hmem, ?_⟩))
    simp [hacc]
  | scripted m q d hmem hacc =>
    obtain ⟨subs, vs, avs, fns, lib, its, afs⟩ := m
    simp only [indexModule, List.mem_append]
    refine Or.inr (List.mem_filterMap.mpr ⟨d, hmem, ?_⟩)
    simp [hacc]
  | sub m q n m' k f hsm hpc ih =>
    obtain ⟨subs, vs, avs, fns, lib, its, afs⟩ := m
    simp only [indexModule, List.mem_append]
    exact Or.inl (Or.inl (mem_indexSubs_of_subMem hsm q ih))


/-! ## Accessor lemmas -/

@[simp] theorem Module.modules_mk (s vs avs fns lib its afs) :
    (Module.mk s vs avs fns lib its afs).modules = s := rfl

@[simp] theorem Module.vars_mk (s vs avs fns lib its afs) :
    (Module.mk s vs avs fns lib its afs).vars = vs := rfl

@[simp] theorem Module.all_variables_mk (s vs avs fns lib its afs) :
    (Module.mk s vs avs fns lib its afs).all_variables = avs := rfl

@[simp] theorem Module.functions_mk (s vs avs fns lib its afs) :
    (Module.mk s vs avs fns lib its afs).functions = fns := rfl

@[simp] theorem Module.fn_lib_mk (s vs avs fns lib its afs) :
    (Module.mk s vs avs fns lib its afs).fn_lib = lib := rfl

@[simp] theorem Module.all_functions_mk (s vs avs fns lib its afs) :
    (Module.mk s vs avs fns lib its afs).all_functions = afs := rfl

@[simp] theorem Module.set_var_vars (m : Module) (n : String) (v : Dyn) :
    (m.set_var n v).vars = alInsert m.vars n v := by
  cases m; rfl

@[simp] theorem Module.set_var_modules (m : Module) (n : String) (v : Dyn) :
    (m.set_var n v).modules = m.modules := by
  cases m; rfl

@[simp] theorem Module.set_var_all_variables (m : Module) (n : String)
    (v : Dyn) : (m.set_var n v).all_variables = m.all_variables := by
  cases m; rfl

@[simp] theorem Module.set_var_all_functions (m : Module) (n : String)
    (v : Dyn) : (m.set_var n v).all_functions = m.all_functions := by
  cases m; rfl

@[simp] theorem Module.set_var_functions (m : Module) (n : String) (v : Dyn) :
    (m.set_var n v).functions = m.functions := by
  cases m; rfl

@[simp] theorem Module.set_sub_module_modules (m : Module) (n : String)
    (sub : Module) : (m.set_sub_module n sub).modules =
      subInsert m.modules n sub := by
  cases m; rfl

@[simp] theorem Module.set_sub_module_vars (m : Module) (n : String)
    (sub : Module) : (m.set_sub_module n sub).vars = m.vars := by
  cases m; rfl

@[simp] theorem Module.set_fn_hash (m : Module) (n : String) (a : FnAccess)
    (ps : List Nat) (f : CallableFunction) :
    (m.set_fn n a ps f).1 = calc_fn_hash [] n ps.length ps := by
  cases m; rfl

@[simp] theorem Module.set_fn_functions (m : Module) (n : String)
    (a : FnAccess) (ps : List Nat) (f : CallableFunction) :
    (m.set_fn n a ps f).2.functions =
      alInsert m.functions (calc_fn_hash [] n ps.length ps)
        ⟨n, a, ps, f⟩ := by
  cases m; rfl

@[simp] theorem Module.set_fn_modules (m : Module) (n : String) (a : FnAccess)
    (ps : List Nat) (f : CallableFunction) :
    (m.set_fn n a ps f).2.modules = m.modules := by
  cases m; rfl

@[simp] theorem Module.set_fn_fn_lib (m : Module) (n : String) (a : FnAccess)
    (ps : List Nat) (f : CallableFunction) :
    (m.set_fn n a ps f).2.fn_lib = m.fn_lib := by
  cases m; rfl

@[simp] theorem Module.set_fn_vars (m : Module) (n : String) (a : FnAccess)
    (ps : List Nat) (f : CallableFunction) :
    (m.set_fn n a ps f).2.vars = m.vars := by
  cases m; rfl

@[simp] theorem Module.index_all_functions (m : Module) :
    m.index_all_sub_modules.all_functions =
      toMap (indexModule m ["root"]).2 := by
  cases m; rfl

@[simp] theorem Module.index_all_variables (m : Module) :
    m.index_all_sub_modules.all_variables =
      toMap (indexModule m ["root"]).1 := by
  cases m; rfl

@[simp] theorem Module.index_functions (m : Module) :
    m.index_all_sub_modules.functions = m.functions := by
  cases m; rfl

@[simp] theorem Module.index_fn_lib (m : Module) :
    m.index_all_sub_modules.fn_lib = m.fn_lib := by
  cases m; rfl

@[simp] theorem Module.index_vars (m : Module) :
    m.index_all_sub_modules.vars = m.vars := by
  cases m; rfl

@[simp] theorem Module.index_modules (m : Module) :
    m.index_all_sub_modules.modules = m.modules := by
  cases m; rfl


/-! ## Claim theorems -/

/-- The hash is injective in the arity and type-id list jointly, when
the qualifiers and name are fixed. -/
theorem calc_fn_hash_arity_typeIds_inj {q : List String} {n : String}
    {a₁ a₂ : Nat} {t₁ t₂ : List Nat}
    (h : calc_fn_hash q n a₁ t₁ = calc_fn_hash q n a₂ t₂) :
    a₁ = a₂ ∧ t₁ = t₂ := by
  unfold calc_fn_hash at h
  rw [Nat.pair_eq_pair] at h
  rw [Nat.pair_eq_pair] at h
  obtain ⟨-, -, h⟩ := h
  rw [Nat.pair_eq_pair] at h
  exact ⟨h.1, encodeNatList_inj h.2⟩

/-- Claim C1 (counterexample): two `set_fn` calls with the same name
`"calc"` and the same arity 1 but different parameter type-id lists
`[1]` and `[2]` return *different* fingerprints, and the second call
does not replace the first — both entries are retrievable. -/
theorem set_fn_type_ids_cex :
    ((Module.new.set_fn "calc" .Public [1] (.pure 0)).1 ≠
      ((Module.new.set_fn "calc" .Public [1] (.pure 0)).2.set_fn "calc"
        .Public [2] (.pure 1)).1)
    ∧ ((Module.new.set_fn "calc" .Public [1] (.pure 0)).2.set_fn "calc"
        .Public [2] (.pure 1)).2.get_fn
        (Module.new.set_fn "calc" .Public [1] (.pure 0)).1 = some (.pure 0)
    ∧ ((Module.new.set_fn "calc" .Public [1] (.pure 0)).2.set_fn "calc"
        .Public [2] (.pure 1)).2.get_fn
        ((Module.new.set_fn "calc" .Public [1] (.pure 0)).2.set_fn "calc"
          .Public [2] (.pure 1)).1 = some (.pure 1) :=
  ⟨by decide, rfl, rfl⟩

/-- Claim C1 (amended): the fingerprint returned by `set_fn`, which is
also the storage key in the local `functions` table, is computed from
the name, the arity *and* the parameter type ids (with empty
qualifiers).  Two calls with the same name and arity but different
type-id lists return distinct fingerprints and both entries coexist; a
second call with the same name, arity and type ids replaces the
first. -/
theorem set_fn_fingerprint_spec (m : Module) (name : String)
    (a₁ a₂ : FnAccess) (t₁ t₂ : List Nat) (f₁ f₂ : CallableFunction) :
    (m.set_fn name a₁ t₁ f₁).1 = calc_fn_hash [] name t₁.length t₁
    ∧ (m.set_fn name a₁ t₁ f₁).2.get_fn (m.set_fn name a₁ t₁ f₁).1 = some f₁
    ∧ (t₁ ≠ t₂ →
        (m.set_fn name a₁ t₁ f₁).1 ≠
            ((m.set_fn name a₁ t₁ f₁).2.set_fn name a₂ t₂ f₂).1
        ∧ ((m.set_fn name a₁ t₁ f₁).2.set_fn name a₂ t₂ f₂).2.get_fn
            (m.set_fn name a₁ t₁ f₁).1 = some f₁
        ∧ ((m.set_fn name a₁ t₁ f₁).2.set_fn name a₂ t₂ f₂).2.get_fn
            ((m.set_fn name a₁ t₁ f₁).2.set_fn name a₂ t₂ f₂).1 = some f₂)
    ∧ ((m.set_fn name a₁ t₁ f₁).2.set_fn name a₂ t₁ f₂).2.get_fn
        (m.set_fn name a₁ t₁ f₁).1 = some f₂ := by
  have hne' : ∀ (h : t₁ ≠ t₂),
      calc_fn_hash [] name t₂.length t₂ ≠ calc_fn_hash [] name t₁.length t₁ :=
    fun h heq => h ((calc_fn_hash_arity_typeIds_inj heq.symm).2)
  refine ⟨Module.set_fn_hash .., ?_, fun h => ⟨?_, ?_, ?_⟩, ?_⟩
  · simp [Module.get_fn, alFind_alInsert]
  · intro heq
    rw [Module.set_fn_hash, Module.set_fn_hash] at heq
    exact hne' h heq.symm
  · simp [Module.get_fn, alFind_alInsert, if_neg (hne' h)]
  · simp [Module.get_fn, alFind_alInsert]
  · simp [Module.get_fn, alFind_alInsert]

/-- Witness for `set_fn_fingerprint_spec` at a concrete input. -/
theorem set_fn_fingerprint_spec_witness :
    ([1] : List Nat) ≠ [2]
    ∧ (Module.new.set_fn "calc" .Public [1] (.pure 0)).1 ≠
        ((Module.new.set_fn "calc" .Public [1] (.pure 0)).2.set_fn "calc"
          .Public [2] (.pure 1)).1 :=
  ⟨by decide,
   ((set_fn_fingerprint_spec Module.new "calc" .Public .Public [1] [2]
      (.pure 0) (.pure 1)).2.2.1 (by decide)).1⟩

/-- Claim C4: in the tree root → a → b → (x = 42), after indexing, the
qualified lookup under the hash of (["root","a","b"], "x", 0, []) finds
42, and the lookup under the hash of (["root","a"], "x", 0, []) fails
with `ErrorVariableNotFound` carrying the display name and the supplied
position. -/
theorem nesting_round_trip :
    ((Module.new.set_sub_module "a"
        (Module.new.set_sub_module "b"
          (Module.new.set_var "x"
            (.int 42)))).index_all_sub_modules.get_qualified_var_mut
        "x" (calc_fn_hash ["root", "a", "b"] "x" 0 []) (.line_col 1 2) =
      .ok (.int 42))
    ∧ ((Module.new.set_sub_module "a"
        (Module.new.set_sub_module "b"
          (Module.new.set_var "x"
            (.int 42)))).index_all_sub_modules.get_qualified_var_mut
        "x" (calc_fn_hash ["root", "a"] "x" 0 []) (.line_col 1 2) =
      .error (.ErrorVariableNotFound "x" (.line_col 1 2))) :=
  ⟨rfl, rfl⟩

/-- Claim C5 (counterexample): for the one-qualifier chain `["a"]`, the
display form is `"a::"` — the separator *is* emitted after the final
qualifier, contradicting the claimed form `"a"`. -/
theorem moduleRef_display_cex :
    ModuleRef.display ⟨[("a", Position.none)], Option.none⟩ = "a::"
    ∧ specDisplayNoTrailing [("a", Position.none)] = "a"
    ∧ ModuleRef.display ⟨[("a", Position.none)], Option.none⟩ ≠
        specDisplayNoTrailing [("a", Position.none)] :=
  ⟨rfl, rfl, by decide⟩

/-- Claim C5 (amended): the textual form of a `ModuleRef` is each
qualifier name followed by the double-colon separator token,
concatenated in order, *including* a separator after the final
qualifier. -/
theorem moduleRef_display_eq (r : ModuleRef) :
    r.display = qualifierListDisplay r.path := by
  obtain ⟨path, idx⟩ := r
  suffices H : ∀ (acc : String) (l : List (String × Position)),
      List.foldl (fun acc mp => acc ++ mp.1 ++ doubleColonSep) acc l
        = acc ++ qualifierListDisplay l by
    have := H "" path
    rw [String.empty_append] at this
    exact this
  intro acc l
  induction l generalizing acc with
  | nil => simp [qualifierListDisplay, String.append_empty]
  | cons p rest ih =>
    rw [List.foldl_cons, ih, qualifierListDisplay]
    simp [String.append_assoc]

/-- Claim C6: static resolution ignores the engine and scope, returns
the stored module on a hit, and fails with `ErrorModuleNotFound`
carrying the path and the supplied position on a miss. -/
theorem static_resolver_resolve_spec (r : StaticModuleResolver)
    (e e' : Engine) (s s' : Scope) (path : String) (pos : Position) :
    r.resolve e s path pos = r.resolve e' s' path pos
    ∧ (∀ m, alFind r path = some m → r.resolve e s path pos = .ok m)
    ∧ (alFind r path = Option.none →
        r.resolve e s path pos = .error (.ErrorModuleNotFound path pos)) := by
  refine ⟨rfl, ?_, ?_⟩
  · intro m h
    simp [StaticModuleResolver.resolve, h]
  · intro h
    simp [StaticModuleResolver.resolve, h]

/-- Witness for `static_resolver_resolve_spec`: a hit on `"hello"` and
a miss on `"missing"`. -/
theorem static_resolver_resolve_spec_witness :
    StaticModuleResolver.resolve [("hello", Module.new)] ⟨0⟩ []
        "hello" Position.none = .ok Module.new
    ∧ StaticModuleResolver.resolve [("hello", Module.new)] ⟨0⟩ []
        "missing" (.line_col 3 4) =
        .error (.ErrorModuleNotFound "missing" (.line_col 3 4)) :=
  ⟨(static_resolver_resolve_spec [("hello", Module.new)] ⟨0⟩ ⟨0⟩ [] []
      "hello" Position.none).2.1 Module.new rfl,
   (static_resolver_resolve_spec [("hello", Module.new)] ⟨0⟩ ⟨0⟩ [] []
      "missing" (.line_col 3 4)).2.2 rfl⟩

/-- Claim C8: re-indexing with no mutation in between leaves
`all_variables` and `all_functions` identical to the first pass. -/
theorem index_all_sub_modules_idempotent (m : Module) :
    m.index_all_sub_modules.index_all_sub_modules.all_variables =
      m.index_all_sub_modules.all_variables
    ∧ m.index_all_sub_modules.index_all_sub_modules.all_functions =
      m.index_all_sub_modules.all_functions := by
  cases m
  exact ⟨rfl, rfl⟩

/-- Claim C9: `set_var` touches only the local variable mapping — the
derived `all_variables`/`all_functions` caches are unchanged — so the
new variable is retrievable by `get_var` but a qualified lookup of any
hash absent from the stale cache still fails. -/
theorem set_var_frame (m : Module) (name : String) (v : Dyn) :
    (m.set_var name v).all_variables = m.all_variables
    ∧ (m.set_var name v).all_functions = m.all_functions
    ∧ (m.set_var name v).get_var name = some v
    ∧ ∀ (h : Nat) (pos : Position), alFind m.all_variables h = Option.none →
        (m.set_var name v).get_qualified_var_mut name h pos =
          .error (.ErrorVariableNotFound name pos) := by
  refine ⟨Module.set_var_all_variables .., Module.set_var_all_functions ..,
    ?_, ?_⟩
  · simp [Module.get_var, alFind_alInsert]
  · intro h pos hnone
    simp [Module.get_qualified_var_mut, Module.set_var_all_variables, hnone]

/-- Witness for `set_var_frame`: a fresh variable on a never-indexed
module is locally visible but fails qualified lookup. -/
theorem set_var_frame_witness :
    (Module.new.set_var "answer" (.int 42)).get_var "answer" =
        some (.int 42)
    ∧ (Module.new.set_var "answer" (.int 42)).get_qualified_var_mut
        "answer" 0 Position.none =
        .error (.ErrorVariableNotFound "answer" Position.none) :=
  ⟨(set_var_frame Module.new "answer" (.int 42)).2.2.1,
   (set_var_frame Module.new "answer" (.int 42)).2.2.2 0 Position.none rfl⟩


/-- `subFind` after `subInsert`. -/
theorem subFind_subInsert : ∀ (ms : SubModules) (k : String) (v : Module)
    (j : String),
    subFind (subInsert ms k v) j = if k = j then some v else subFind ms j
  | .nil, k, v, j => by simp [subInsert, subFind]
  | .cons n m rest, k, v, j => by
    have ih := subFind_subInsert rest k v j
    simp only [subInsert]
    by_cases hk : n = k
    · rw [if_pos hk]
      subst hk
      by_cases hj : n = j
      · subst hj
        simp [subFind]
      · simp [subFind, if_neg hj]
    · rw [if_neg hk]
      by_cases hj : n = j
      · subst hj
        have hkj : ¬ k = n := fun h => hk h.symm
        simp [subFind, if_neg hkj]
      · simp [subFind, if_neg hj, ih]

/-- The variable mapping produced by folding the scope partition. -/
theorem foldl_scopeStep_vars (scope : Scope) (m : Module) (a : String) :
    alFind (List.foldl scopeStep m scope).vars a =
      match specExportedVar scope a with
      | some v => some v
      | Option.none => alFind m.vars a := by
  induction scope generalizing m with
  | nil => simp [specExportedVar]
  | cons e rest ih =>
    rw [List.foldl_cons, ih]
    cases hs : specExportedVar rest a with
    | some v => simp [specExportedVar, hs]
    | none =>
      simp only [specExportedVar, hs]
      obtain ⟨ty, val, al⟩ := e
      cases ty <;> rcases al with _ | a' <;>
        simp only [scopeStep, Module.set_var_vars, Module.set_sub_module_vars,
          alFind_alInsert] <;>
        first
          | rfl
          | (by_cases ha : a' = a
             · subst ha
               simp
             · simp [if_neg ha])

/-- The sub-module mapping produced by folding the scope partition. -/
theorem foldl_scopeStep_modules (scope : Scope) (m : Module) (a : String) :
    subFind (List.foldl scopeStep m scope).modules a =
      match specExportedMod scope a with
      | some v => some v
      | Option.none => subFind m.modules a := by
  induction scope generalizing m with
  | nil => simp [specExportedMod]
  | cons e rest ih =>
    rw [List.foldl_cons, ih]
    cases hs : specExportedMod rest a with
    | some v => simp [specExportedMod, hs]
    | none =>
      simp only [specExportedMod, hs]
      obtain ⟨ty, val, al⟩ := e
      cases ty <;> rcases al with _ | a' <;>
        simp only [scopeStep, Module.set_var_modules,
          Module.set_sub_module_modules, subFind_subInsert] <;>
        first
          | rfl
          | (by_cases ha : a' = a
             · subst ha
               simp
             · simp [if_neg ha])

/-- The partition step leaves the variable and sub-module mappings of
`eval_ast_as_new` untouched by the final function-library merge. -/
theorem eval_ast_as_new_vars_modules (scope : Scope) (lib : List FnDef) :
    (Module.eval_ast_as_new scope lib).vars =
        (List.foldl scopeStep Module.new scope).vars
    ∧ (Module.eval_ast_as_new scope lib).modules =
        (List.foldl scopeStep Module.new scope).modules := by
  unfold Module.eval_ast_as_new
  generalize List.foldl scopeStep Module.new scope = x
  cases x
  exact ⟨rfl, rfl⟩

/-- Claim C7: building a module from an evaluated scope exports exactly
the aliased entries — an aliased variable/constant becomes a module
variable named by the alias (the later of two same-alias entries in
scope order wins), an aliased module-typed entry becomes a sub-module
named by the alias, and an entry without an alias reaches neither the
variable nor the sub-module mapping. -/
theorem eval_ast_as_new_partition (scope : Scope) (lib : List FnDef)
    (a : String) :
    alFind (Module.eval_ast_as_new scope lib).vars a = specExportedVar scope a
    ∧ subFind (Module.eval_ast_as_new scope lib).modules a =
        specExportedMod scope a := by
  constructor
  · rw [(eval_ast_as_new_vars_modules scope lib).1, foldl_scopeStep_vars]
    cases specExportedVar scope a <;> simp [Module.new, alFind]
  · rw [(eval_ast_as_new_vars_modules scope lib).2, foldl_scopeStep_modules]
    cases specExportedMod scope a <;> simp [Module.new, subFind]


/-- Cancellation for the XOR combination of the two fingerprint
halves. -/
theorem nat_xor_right_cancel {n m m' : Nat}
    (h : Nat.xor n m = Nat.xor n m') : m = m' :=
  Nat.xor_right_inj.mp h

/-- Claim C2: every Public native function visited during indexing is
recorded under the XOR of its definition fingerprint (current qualifier
path, name, arity, no type ids) and its argument fingerprint (empty
qualifiers, empty name, zero arity, declared parameter type ids); two
functions with the same qualified name and arity but different type-id
lists therefore receive distinct keys, and each resolves to its own
callable. -/
theorem indexed_native_key_xor :
    (∀ (m : Module) (q : List String) (h : Nat) (e : FnEntry),
        (h, e) ∈ m.functions → e.access = .Public →
        (Nat.xor (calc_fn_hash q e.name e.params.length [])
           (calc_fn_hash [] "" 0 e.params), e.func) ∈ (indexModule m q).2)
    ∧ (∀ (name : String) (t₁ t₂ : List Nat) (f₁ f₂ : CallableFunction),
        t₁.length = t₂.length → t₁ ≠ t₂ →
        Nat.xor (calc_fn_hash ["root"] name t₁.length [])
            (calc_fn_hash [] "" 0 t₁) ≠
          Nat.xor (calc_fn_hash ["root"] name t₂.length [])
            (calc_fn_hash [] "" 0 t₂)
        ∧ ((Module.new.set_fn name .Public t₁ f₁).2.set_fn name .Public t₂
            f₂).2.index_all_sub_modules.get_qualified_fn name
            (Nat.xor (calc_fn_hash ["root"] name t₁.length [])
              (calc_fn_hash [] "" 0 t₁)) = .ok f₁
        ∧ ((Module.new.set_fn name .Public t₁ f₁).2.set_fn name .Public t₂
            f₂).2.index_all_sub_modules.get_qualified_fn name
            (Nat.xor (calc_fn_hash ["root"] name t₂.length [])
              (calc_fn_hash [] "" 0 t₂)) = .ok f₂) := by
  constructor
  · intro m q h e hmem hacc
    exact pubContrib_mem_indexModule (PubContrib.native m q h e hmem hacc)
  · intro name t₁ t₂ f₁ f₂ hlen hne
    have hloc : calc_fn_hash [] name t₁.length t₁ ≠
        calc_fn_hash [] name t₂.length t₂ :=
      fun heq => hne (calc_fn_hash_arity_typeIds_inj heq).2
    have hargs : calc_fn_hash [] "" 0 t₁ ≠ calc_fn_hash [] "" 0 t₂ :=
      fun heq => hne (calc_fn_hash_typeIds_inj heq)
    have hkey : Nat.xor (calc_fn_hash ["root"] name t₁.length [])
          (calc_fn_hash [] "" 0 t₁) ≠
        Nat.xor (calc_fn_hash ["root"] name t₂.length [])
          (calc_fn_hash [] "" 0 t₂) := by
      rw [hlen]
      exact fun heq => hargs (nat_xor_right_cancel heq)
    have hm : ((Module.new.set_fn name .Public t₁ f₁).2.set_fn name .Public
          t₂ f₂).2 =
        Module.mk .nil [] []
          [(calc_fn_hash [] name t₁.length t₁, ⟨name, .Public, t₁, f₁⟩),
           (calc_fn_hash [] name t₂.length t₂, ⟨name, .Public, t₂, f₂⟩)]
          [] [] [] := by
      simp [Module.new, Module.set_fn, alInsert, if_neg hloc]
    rw [hm]
    refine ⟨hkey, ?_, ?_⟩
    · simp [Module.get_qualified_fn, Module.index_all_functions, indexModule,
        indexSubs, toMap, alInsert, alFind, if_neg hkey]
    · simp [Module.get_qualified_fn, Module.index_all_functions, indexModule,
        indexSubs, toMap, alInsert, alFind, if_neg hkey]

/-- Witness for `indexed_native_key_xor` at the spec's overload
example: name `"calc"`, arity 1, type-id lists `[1]` and `[2]`. -/
theorem indexed_native_key_xor_witness :
    ((Nat.xor (calc_fn_hash ["root"] "calc" 1 []) (calc_fn_hash [] "" 0 [1]),
        CallableFunction.pure 7) ∈
      (indexModule (Module.new.set_fn "calc" .Public [1] (.pure 7)).2
        ["root"]).2)
    ∧ Nat.xor (calc_fn_hash ["root"] "calc" 1 [])
        (calc_fn_hash [] "" 0 [1]) ≠
      Nat.xor (calc_fn_hash ["root"] "calc" 1 []) (calc_fn_hash [] "" 0 [2])
    ∧ ((Module.new.set_fn "calc" .Public [1] (.pure 7)).2.set_fn "calc"
        .Public [2] (.pure 8)).2.index_all_sub_modules.get_qualified_fn "calc"
        (Nat.xor (calc_fn_hash ["root"] "calc" 1 [])
          (calc_fn_hash [] "" 0 [1])) = .ok (.pure 7)
    ∧ ((Module.new.set_fn "calc" .Public [1] (.pure 7)).2.set_fn "calc"
        .Public [2] (.pure 8)).2.index_all_sub_modules.get_qualified_fn "calc"
        (Nat.xor (calc_fn_hash ["root"] "calc" 1 [])
          (calc_fn_hash [] "" 0 [2])) = .ok (.pure 8) :=
  ⟨indexed_native_key_xor.1 (Module.new.set_fn "calc" .Public [1] (.pure 7)).2
      ["root"] (calc_fn_hash [] "calc" 1 [1]) ⟨"calc", .Public, [1], .pure 7⟩
      (by decide) rfl,
   indexed_native_key_xor.2 "calc" [1] [2] (.pure 7) (.pure 8) rfl
     (by decide)⟩

/-- Claim C3: indexing leaves the local tables untouched (so a Private
function is still retrievable through its local handle), every
successful qualified lookup resolves to a Public contribution (so no
Private function, native or scripted, is reachable through
`get_qualified_fn`), and every Public contribution's key is present in
`all_functions`. -/
theorem private_functions_not_indexed (m : Module) :
    (∀ h : Nat, m.index_all_sub_modules.get_fn h = m.get_fn h)
    ∧ m.index_all_sub_modules.fn_lib = m.fn_lib
    ∧ (∀ (name : String) (h : Nat) (f : CallableFunction),
        m.index_all_sub_modules.get_qualified_fn name h = .ok f →
        PubContrib m ["root"] h f)
    ∧ (∀ (h : Nat) (f : CallableFunction), PubContrib m ["root"] h f →
        ∀ name, ∃ g, m.index_all_sub_modules.get_qualified_fn name h = .ok g)
    := by
  refine ⟨?_, Module.index_fn_lib m, ?_, ?_⟩
  · intro h
    simp [Module.get_fn, Module.index_functions]
  · intro name h f hok
    unfold Module.get_qualified_fn at hok
    rw [Module.index_all_functions] at hok
    cases heq : alFind (toMap (indexModule m ["root"]).2) h with
    | none => rw [heq] at hok; exact absurd hok (by simp)
    | some g =>
      rw [heq] at hok
      simp only [Except.ok.injEq] at hok
      exact hok ▸ indexModule_fns_sound m ["root"] (h, g) (alFind_toMap_mem heq)
  · intro h f hpc name
    have hmem := pubContrib_mem_indexModule hpc
    have hsome := alFind_toMap_isSome hmem
    unfold Module.get_qualified_fn
    rw [Module.index_all_functions]
    cases heq : alFind (toMap (indexModule m ["root"]).2) h with
    | none => rw [heq] at hsome; exact absurd hsome (by simp)
    | some g => exact ⟨g, rfl⟩

/-- Witness for `private_functions_not_indexed`: a module with a
Private `"f"` and a Public `"g"`; the Public key resolves and the
successful lookup is traced back to a Public contribution. -/
theorem private_functions_not_indexed_witness :
    PubContrib ((Module.new.set_fn "f" .Private [] (.pure 0)).2.set_fn "g"
        .Public [] (.pure 1)).2 ["root"]
      (Nat.xor (calc_fn_hash ["root"] "g" 0 []) (calc_fn_hash [] "" 0 []))
      (.pure 1)
    ∧ ∃ g, ((Module.new.set_fn "f" .Private [] (.pure 0)).2.set_fn "g"
        .Public [] (.pure 1)).2.index_all_sub_modules.get_qualified_fn "g"
        (Nat.xor (calc_fn_hash ["root"] "g" 0 []) (calc_fn_hash [] "" 0 []))
        = .ok g :=
  ⟨(private_functions_not_indexed
      ((Module.new.set_fn "f" .Private [] (.pure 0)).2.set_fn "g" .Public []
        (.pure 1)).2).2.2.1 "g"
      (Nat.xor (calc_fn_hash ["root"] "g" 0 []) (calc_fn_hash [] "" 0 []))
      (.pure 1) rfl,
   (private_functions_not_indexed
      ((Module.new.set_fn "f" .Private [] (.pure 0)).2.set_fn "g" .Public []
        (.pure 1)).2).2.2.2
      (Nat.xor (calc_fn_hash ["root"] "g" 0 []) (calc_fn_hash [] "" 0 []))
      (.pure 1)
      ((private_functions_not_indexed
        ((Module.new.set_fn "f" .Private [] (.pure 0)).2.set_fn "g" .Public []
          (.pure 1)).2).2.2.1 "g"
        (Nat.xor (calc_fn_hash ["root"] "g" 0 []) (calc_fn_hash [] "" 0 []))
        (.pure 1) rfl) "g"⟩

/-- A `set_fn` registration with `Public` access is stored under the
returned handle with `Public` visibility. -/
theorem set_fn_registersPublic (m : Module) (name : String)
    (params : List Nat) (c : CallableFunction) :
    registersPublic (m.set_fn name .Public params c) name params c := by
  simp [registersPublic, Module.set_fn_hash, Module.set_fn_functions,
    alFind_alInsert]

/-- A `set_fn` registration with `Public` access is reachable through
its qualified key after indexing. -/
theorem set_fn_public_key_present (m : Module) (name : String)
    (params : List Nat) (c : CallableFunction) :
    qualifiedKeyPresent (m.set_fn name .Public params c) name params := by
  have he := set_fn_registersPublic m name params c
  have hpc : PubContrib (m.set_fn name .Public params c).2 ["root"]
      (Nat.xor (calc_fn_hash ["root"] name params.length [])
        (calc_fn_hash [] "" 0 params)) c :=
    PubContrib.native _ ["root"] (m.set_fn name .Public params c).1
      ⟨name, .Public, params, c⟩ (alFind_mem he) rfl
  unfold qualifiedKeyPresent
  rw [Module.index_all_functions]
  exact alFind_toMap_isSome (pubContrib_mem_indexModule hpc)

/-- Claim C10: each fixed-arity convenience registrar stores its
wrapped function with `Public` visibility (none can produce a Private
entry), and after indexing the function's XOR-combined qualified key is
present in `all_functions`. -/
theorem fixed_arity_registrars_public (m : Module) (name : String)
    (tA tB tC fid : Nat) :
    (registersPublic (m.set_fn_0 name fid) name [] (.pure fid)
      ∧ qualifiedKeyPresent (m.set_fn_0 name fid) name [])
    ∧ (registersPublic (m.set_fn_1 name tA fid) name [tA] (.pure fid)
      ∧ qualifiedKeyPresent (m.set_fn_1 name tA fid) name [tA])
    ∧ (registersPublic (m.set_fn_1_mut name tA fid) name [tA] (.method fid)
      ∧ qualifiedKeyPresent (m.set_fn_1_mut name tA fid) name [tA])
    ∧ (registersPublic (m.set_fn_2 name tA tB fid) name [tA, tB] (.pure fid)
      ∧ qualifiedKeyPresent (m.set_fn_2 name tA tB fid) name [tA, tB])
    ∧ (registersPublic (m.set_fn_2_mut name tA tB fid) name [tA, tB]
        (.method fid)
      ∧ qualifiedKeyPresent (m.set_fn_2_mut name tA tB fid) name [tA, tB])
    ∧ (registersPublic (m.set_fn_3 name tA tB tC fid) name [tA, tB, tC]
        (.pure fid)
      ∧ qualifiedKeyPresent (m.set_fn_3 name tA tB tC fid) name [tA, tB, tC])
    ∧ (registersPublic (m.set_fn_3_mut name tA tB tC fid) name [tA, tB, tC]
        (.method fid)
      ∧ qualifiedKeyPresent (m.set_fn_3_mut name tA tB tC fid) name
          [tA, tB, tC]) :=
  ⟨⟨set_fn_registersPublic .., set_fn_public_key_present ..⟩,
   ⟨set_fn_registersPublic .., set_fn_public_key_present ..⟩,
   ⟨set_fn_registersPublic .., set_fn_public_key_present ..⟩,
   ⟨set_fn_registersPublic .., set_fn_public_key_present ..⟩,
   ⟨set_fn_registersPublic .., set_fn_public_key_present ..⟩,
   ⟨set_fn_registersPublic .., set_fn_public_key_present ..⟩,
   ⟨set_fn_registersPublic .., set_fn_public_key_present ..⟩⟩


end Rhai
